import Mathlib

/-!
Shallow embedding of MicroOS (src/src/MicroOS.c) — a bare-metal cooperative
scheduler with a fixed task table, a delay manager and an event registry,
both built on intrusive free/active lists over static node pools.

Modelling conventions:
* `uint8_t` and `uint32_t` values are `Nat` truncated with `% 256` and
  `% 2^32` exactly where the C types force wraparound.
* Pool nodes live in static arrays; a node is identified by its array
  index (`Nat`), and the intrusive `next`-pointer chains of `free_list`
  and `active_list` are modelled as lists of node indices.  Each node's
  payload is a function from index to record, updated pointwise.
* Function pointers (`TaskFunction`, `EventFunction`) and `void *` user
  data are opaque `Nat` labels; the null pointer is the label `0`.
  Invoking a callback is modelled by recording the `(fn, userdata)` pair
  in a trace list, in invocation order.
-/

/-- Status codes of `MicroOS_Status_t` (MicroOS_types.h). -/
inductive MStatus where
  | OK
  | ERROR
  | TIMEOUT
  | INVALID_PARAM
  | NOT_INITIALIZED
  | BUSY
deriving DecidableEq, Repr

/-- `MICROOS_TASK_SIZE` (MicroOS_conf.h). -/
def MICROOS_TASK_SIZE : Nat := 10

/-- `OS_DELAY_POOLSIZE` (MicroOS_conf.h). -/
def OS_DELAY_POOLSIZE : Nat := 10

/-- `OS_EVENT_POOLSIZE` (MicroOS_conf.h). -/
def OS_EVENT_POOLSIZE : Nat := 10

/-- Modulus of `uint32_t` arithmetic. -/
def U32 : Nat := 2 ^ 32

/-- Modulus of `uint8_t` arithmetic. -/
def U8 : Nat := 256

/-- `uint32_t` subtraction `a - b` on already-reduced operands. -/
def sub32 (a b : Nat) : Nat := (a % U32 + U32 - b % U32) % U32

/-- Payload of `MicroOS_OSdelay_Task_t`: id, countdown and timeout flag
(the intrusive `next` pointer is represented by list position). -/
structure DelayNode where
  id : Nat
  ms : Nat
  IsTimeout : Bool
deriving DecidableEq, Repr

/-- The zeroed delay node (static initialisation / `memset` to 0). -/
def zeroDelayNode : DelayNode := ⟨0, 0, false⟩

/-- State of the delay subsystem: the `free_list` and `active_list`
index chains over `delay_pool`, plus each pool slot's payload. -/
structure DelayState where
  free : List Nat
  active : List Nat
  node : Nat → DelayNode

/-- Ids currently on the active list, in list order. -/
def delayActiveIds (s : DelayState) : List Nat :=
  s.active.map fun j => (s.node j).id

/-- `MicroOS_OSdelay_Init`: threads all pool slots into the free list,
empties the active list (payloads are zero from static initialisation). -/
def delayInit : DelayState :=
  { free := List.range OS_DELAY_POOLSIZE
    active := []
    node := fun _ => zeroDelayNode }

/-- `MicroOS_OSdelay`: scan the active list for `id`; if found, reset the
countdown and clear the timeout flag in place; otherwise pop the free-list
head (fail `BUSY` when empty), fill it and push it on the active list. -/
def osDelay (s : DelayState) (id ticks : Nat) : MStatus × DelayState :=
  let i := id % U8
  let t := ticks % U32
  match s.active.find? (fun j => (s.node j).id == i) with
  | some j =>
      (MStatus.OK,
       { s with node := fun k =>
           if k = j then { s.node j with ms := t, IsTimeout := false }
           else s.node k })
  | none =>
      match s.free with
      | [] => (MStatus.BUSY, s)
      | h :: rest =>
          (MStatus.OK,
           { free := rest
             active := h :: s.active
             node := fun k => if k = h then ⟨i, t, false⟩ else s.node k })

/-- `MicroOS_OSdelayDone`: return the timeout flag of the first active
node with this id, or `false` when there is none. -/
def osDelayDone (s : DelayState) (id : Nat) : Bool :=
  let i := id % U8
  match s.active.find? (fun j => (s.node j).id == i) with
  | some j => (s.node j).IsTimeout
  | none => false

/-- Per-node effect of `MicroOS_OSdelay_Tick`: when the countdown is
positive, decrement it and raise the timeout flag on reaching zero. -/
def tickDelayNode (n : DelayNode) : DelayNode :=
  if 0 < n.ms then
    let m := n.ms - 1
    { n with ms := m, IsTimeout := if m = 0 then true else n.IsTimeout }
  else n

/-- Walk of the active chain made by `MicroOS_OSdelay_Tick`, applying
`tickDelayNode` to each visited node in order. -/
def tickWalk (f : Nat → DelayNode) : List Nat → Nat → DelayNode
  | [], k => f k
  | j :: rest, k =>
      tickWalk (fun x => if x = j then tickDelayNode (f j) else f x) rest k

/-- `MicroOS_OSdelay_Tick`: decrement every active countdown. -/
def osDelayTick (s : DelayState) : DelayState :=
  { s with node := tickWalk s.node s.active }

/-- Unlink of `MicroOS_OSdelay_Remove`: find the first node of the chain
whose id matches and detach it, keeping the rest in order. -/
def removeWalk (f : Nat → DelayNode) (i : Nat) : List Nat → Option (Nat × List Nat)
  | [] => none
  | j :: rest =>
      if (f j).id == i then some (j, rest)
      else
        match removeWalk f i rest with
        | some (k, rest2) => some (k, j :: rest2)
        | none => none

/-- `MicroOS_OSdelay_Remove`: unlink the first active node with this id,
zero it and push it on the free list; silently no-op when absent. -/
def osDelayRemove (s : DelayState) (id : Nat) : DelayState :=
  let i := id % U8
  match removeWalk s.node i s.active with
  | none => s
  | some (j, act) =>
      { free := j :: s.free
        active := act
        node := fun k => if k = j then zeroDelayNode else s.node k }

/-- Payload of `MicroOS_Event_Task_t`: id, flags, callback label and user
data label (the intrusive `next` pointer is represented by list position). -/
structure EventNode where
  id : Nat
  IsRunning : Bool
  IsUsed : Bool
  IsTriggered : Bool
  fn : Nat
  ud : Nat
deriving DecidableEq, Repr

/-- The zeroed event node (static initialisation / `memset` to 0). -/
def zeroEventNode : EventNode := ⟨0, false, false, false, 0, 0⟩

/-- State of the event subsystem (`MicroOS_Event_t`): the `free_event`
and `active_event` index chains over `EventPools`, each slot's payload,
plus `CurrentEventId` and `EventNum`. -/
structure EventState where
  free : List Nat
  active : List Nat
  node : Nat → EventNode
  CurrentEventId : Nat
  EventNum : Nat

/-- Ids currently on the active event list, in list order. -/
def eventActiveIds (s : EventState) : List Nat :=
  s.active.map fun j => (s.node j).id

/-- `MicroOS_OSEvent_Init`: threads all pool slots into the free list,
empties the active list (payloads are zero from static initialisation). -/
def eventInit : EventState :=
  { free := List.range OS_EVENT_POOLSIZE
    active := []
    node := fun _ => zeroEventNode
    CurrentEventId := 0
    EventNum := 0 }

/-- `MicroOS_RegisterEvent`: null callback fails `ERROR`; an active node
with the same id is overwritten in place; otherwise pop the free-list
head (fail `BUSY` when empty), increment `EventNum`, fill the node and
push it on the active list. -/
def registerEvent (s : EventState) (id fn ud : Nat) : MStatus × EventState :=
  let i := id % U8
  if fn = 0 then (MStatus.ERROR, s)
  else
    match s.active.find? (fun j => (s.node j).id == i) with
    | some j =>
        (MStatus.OK,
         { s with node := fun k =>
             if k = j then
               { s.node j with fn := fn, IsRunning := true, ud := ud,
                               IsTriggered := false, IsUsed := true }
             else s.node k })
    | none =>
        match s.free with
        | [] => (MStatus.BUSY, s)
        | h :: rest =>
            (MStatus.OK,
             { free := rest
               active := h :: s.active
               node := fun k =>
                 if k = h then ⟨i, true, true, false, fn, ud⟩ else s.node k
               CurrentEventId := s.CurrentEventId
               EventNum := (s.EventNum + 1) % U8 })

/-- Unlink of `MicroOS_DeleteEvent`: find the first node of the chain
whose id matches and detach it, keeping the rest in order. -/
def eventRemoveWalk (f : Nat → EventNode) (i : Nat) : List Nat → Option (Nat × List Nat)
  | [] => none
  | j :: rest =>
      if (f j).id == i then some (j, rest)
      else
        match eventRemoveWalk f i rest with
        | some (k, rest2) => some (k, j :: rest2)
        | none => none

/-- `MicroOS_DeleteEvent`: unlink the first active node with this id,
decrement `EventNum`, zero the node and push it on the free list;
silently no-op when absent. -/
def deleteEvent (s : EventState) (id : Nat) : EventState :=
  let i := id % U8
  match eventRemoveWalk s.node i s.active with
  | none => s
  | some (j, act) =>
      { free := j :: s.free
        active := act
        node := fun k => if k = j then zeroEventNode else s.node k
        CurrentEventId := s.CurrentEventId
        EventNum := (s.EventNum + U8 - 1) % U8 }

/-- `MicroOS_TriggerEvent`: set the triggered flag of the first active
node with this id (independently of `IsRunning`); `ERROR` when absent. -/
def triggerEvent (s : EventState) (id : Nat) : MStatus × EventState :=
  let i := id % U8
  match s.active.find? (fun j => (s.node j).id == i) with
  | some j =>
      (MStatus.OK,
       { s with node := fun k =>
           if k = j then { s.node j with IsTriggered := true } else s.node k })
  | none => (MStatus.ERROR, s)

/-- `MicroOS_SuspendEvent`: clear the run flag of the first active node
with this id; `ERROR` when absent. -/
def suspendEvent (s : EventState) (id : Nat) : MStatus × EventState :=
  let i := id % U8
  match s.active.find? (fun j => (s.node j).id == i) with
  | some j =>
      (MStatus.OK,
       { s with node := fun k =>
           if k = j then { s.node j with IsRunning := false } else s.node k })
  | none => (MStatus.ERROR, s)

/-- `MicroOS_ResumeEvent`: set the run flag of the first active node
with this id; `ERROR` when absent. -/
def resumeEvent (s : EventState) (id : Nat) : MStatus × EventState :=
  let i := id % U8
  match s.active.find? (fun j => (s.node j).id == i) with
  | some j =>
      (MStatus.OK,
       { s with node := fun k =>
           if k = j then { s.node j with IsRunning := true } else s.node k })
  | none => (MStatus.ERROR, s)

/-- Walk of the active chain made by `MicroOS_DispatchAllEvents`: for each
node with `IsRunning ∧ IsTriggered ∧ IsUsed`, record its id as current,
invoke the callback (append `(fn, ud)` to the trace) and clear the
triggered flag.  Returns the updated payloads, the last current id and
the invocation trace in order. -/
def dispatchWalk (f : Nat → EventNode) (cur : Nat) :
    List Nat → (Nat → EventNode) × Nat × List (Nat × Nat)
  | [] => (f, cur, [])
  | j :: rest =>
      let n := f j
      if n.IsRunning && n.IsTriggered && n.IsUsed then
        let f2 := fun k => if k = j then { n with IsTriggered := false } else f k
        let r := dispatchWalk f2 n.id rest
        (r.1, r.2.1, (n.fn, n.ud) :: r.2.2)
      else dispatchWalk f cur rest

/-- `MicroOS_DispatchAllEvents`: walk the active list from its head,
firing every runnable triggered node; returns the new state and the
trace of callback invocations in order. -/
def dispatchAllEvents (s : EventState) : EventState × List (Nat × Nat) :=
  let r := dispatchWalk s.node s.CurrentEventId s.active
  ({ s with node := r.1, CurrentEventId := r.2.1 }, r.2.2)

/-- One slot of the task table (`MicroOS_Task_Sub_t`). -/
structure TaskRec where
  IsUsed : Bool
  IsRunning : Bool
  IsSleeping : Bool
  SleepTicks : Nat
  Period : Nat
  LastRunTime : Nat
  fn : Nat
  ud : Nat
deriving DecidableEq, Repr

/-- The zeroed task slot (static initialisation / `memset` to 0). -/
def zeroTask : TaskRec := ⟨false, false, false, 0, 0, 0, 0, 0⟩

/-- The scheduler singleton (`MicroOS_t`): task table, tick counter and
bookkeeping fields. -/
structure OSState where
  tasks : Nat → TaskRec
  TickCount : Nat
  MaxTasks : Nat
  CurrentTaskId : Nat
  TaskNum : Nat

/-- `MicroOS_Init`: resets the counters; the task table itself keeps its
statically zeroed slots. -/
def osInit : OSState :=
  { tasks := fun _ => zeroTask
    TickCount := 0
    MaxTasks := MICROOS_TASK_SIZE
    CurrentTaskId := 0
    TaskNum := 0 }

/-- `MicroOS_AddTask`: id out of bounds fails `INVALID_PARAM`, null
callback fails `ERROR`, `TaskNum > MICROOS_TASK_SIZE` fails `ERROR`;
otherwise increment `TaskNum` and overwrite the slot unconditionally
(`SleepTicks` is the one field the C code does not assign). -/
def addTask (s : OSState) (id fn ud period : Nat) : MStatus × OSState :=
  let i := id % U8
  let p := period % U32
  if MICROOS_TASK_SIZE ≤ i then (MStatus.INVALID_PARAM, s)
  else if fn = 0 then (MStatus.ERROR, s)
  else if MICROOS_TASK_SIZE < s.TaskNum then (MStatus.ERROR, s)
  else
    (MStatus.OK,
     { s with
       TaskNum := (s.TaskNum + 1) % U8
       tasks := fun k =>
         if k = i then
           { s.tasks i with fn := fn, ud := ud, Period := p,
                            LastRunTime := 0, IsRunning := true,
                            IsUsed := true, IsSleeping := false }
         else s.tasks k })

/-- `MicroOS_SuspendTask`: clear the run flag of an in-use slot. -/
def suspendTask (s : OSState) (id : Nat) : MStatus × OSState :=
  let i := id % U8
  if MICROOS_TASK_SIZE ≤ i then (MStatus.INVALID_PARAM, s)
  else if !(s.tasks i).IsUsed then (MStatus.NOT_INITIALIZED, s)
  else
    (MStatus.OK,
     { s with tasks := fun k =>
         if k = i then { s.tasks i with IsRunning := false } else s.tasks k })

/-- `MicroOS_ResumeTask`: set the run flag of an in-use slot. -/
def resumeTask (s : OSState) (id : Nat) : MStatus × OSState :=
  let i := id % U8
  if MICROOS_TASK_SIZE ≤ i then (MStatus.INVALID_PARAM, s)
  else if !(s.tasks i).IsUsed then (MStatus.NOT_INITIALIZED, s)
  else
    (MStatus.OK,
     { s with tasks := fun k =>
         if k = i then { s.tasks i with IsRunning := true } else s.tasks k })

/-- `MicroOS_DeleteTask`: when the slot's run flag is set, decrement
`TaskNum`; then `memset` the whole slot to zero unconditionally. -/
def deleteTask (s : OSState) (id : Nat) : MStatus × OSState :=
  let i := id % U8
  if MICROOS_TASK_SIZE ≤ i then (MStatus.INVALID_PARAM, s)
  else
    (MStatus.OK,
     { s with
       TaskNum :=
         if (s.tasks i).IsRunning then (s.TaskNum + U8 - 1) % U8 else s.TaskNum
       tasks := fun k => if k = i then zeroTask else s.tasks k })

/-- `MicroOS_SleepTask`: zero duration fails `INVALID_PARAM`, unused slot
fails `NOT_INITIALIZED`; otherwise set the sleeping flag, store the
duration and reset `LastRunTime` to the current tick. -/
def sleepTask (s : OSState) (id ticks : Nat) : MStatus × OSState :=
  let i := id % U8
  let t := ticks % U32
  if MICROOS_TASK_SIZE ≤ i then (MStatus.INVALID_PARAM, s)
  else if t = 0 then (MStatus.INVALID_PARAM, s)
  else if !(s.tasks i).IsUsed then (MStatus.NOT_INITIALIZED, s)
  else
    (MStatus.OK,
     { s with tasks := fun k =>
         if k = i then
           { s.tasks i with IsSleeping := true, SleepTicks := t,
                            LastRunTime := s.TickCount }
         else s.tasks k })

/-- `MicroOS_WakeupTask`: clear the sleeping flag and duration of an
in-use slot. -/
def wakeupTask (s : OSState) (id : Nat) : MStatus × OSState :=
  let i := id % U8
  if MICROOS_TASK_SIZE ≤ i then (MStatus.INVALID_PARAM, s)
  else if !(s.tasks i).IsUsed then (MStatus.NOT_INITIALIZED, s)
  else
    (MStatus.OK,
     { s with tasks := fun k =>
         if k = i then { s.tasks i with IsSleeping := false, SleepTicks := 0 }
         else s.tasks k })

/-- `MicroOS_TickHandler`: advance the global tick counter and run the
delay-pool countdown walk. -/
def tickHandler (s : OSState) (d : DelayState) : OSState × DelayState :=
  ({ s with TickCount := (s.TickCount + 1) % U32 }, osDelayTick d)

/-- Per-task body of the scheduler loop (`MicroOS_StartScheduler`, one
iteration of the `for` over the table at the observed tick): skip unused,
not-running and still-sleeping slots, clear an expired sleep, and run the
task when its period has elapsed (resetting `LastRunTime` to the observed
tick).  The returned flag reports whether the callback was invoked. -/
def taskStep (tick : Nat) (t : TaskRec) : TaskRec × Bool :=
  if !t.IsUsed then (t, false)
  else if !t.IsRunning then (t, false)
  else
    let t1 :=
      if t.IsSleeping ∧ t.SleepTicks ≤ sub32 tick t.LastRunTime then
        { t with IsSleeping := false, SleepTicks := 0 }
      else t
    if t1.IsSleeping then (t1, false)
    else if t1.Period ≤ sub32 tick t1.LastRunTime then
      ({ t1 with LastRunTime := tick }, true)
    else (t1, false)

/-- One sweep of the task table by the scheduler loop: visit slots in
ascending id order, applying `taskStep` at the observed tick; the trace
collects the ids whose callbacks were invoked, in invocation order. -/
def schedulerPass (s : OSState) : OSState × List Nat :=
  (List.range MICROOS_TASK_SIZE).foldl
    (fun acc i =>
      let st := acc.1
      let r := taskStep st.TickCount (st.tasks i)
      let st2 :=
        { st with
          CurrentTaskId := if r.2 then i else st.CurrentTaskId
          tasks := fun k => if k = i then r.1 else st.tasks k }
      (st2, if r.2 then acc.2 ++ [i] else acc.2))
    (s, [])

/-- Scenario driver: `k` successive rounds, each one tick-handler call
followed by one sweep of the task table; returns the final state and the
per-round run traces. -/
def schedRounds (s : OSState) (d : DelayState) : Nat → (OSState × DelayState) × List (List Nat)
  | 0 => ((s, d), [])
  | k + 1 =>
      let td := tickHandler s d
      let ps := schedulerPass td.1
      let r := schedRounds ps.1 td.2 k
      (r.1, ps.2 :: r.2)

/-- The operations that touch the delay pool's lists. -/
inductive DelayOp where
  | start (id ticks : Nat)
  | remove (id : Nat)
  | tick
deriving DecidableEq, Repr

/-- Apply one delay-pool operation (dropping the status). -/
def applyDelayOp (s : DelayState) : DelayOp → DelayState
  | DelayOp.start id t => (osDelay s id t).2
  | DelayOp.remove id => osDelayRemove s id
  | DelayOp.tick => osDelayTick s

/-- Run a sequence of delay-pool operations from the initialised pool. -/
def runDelayOps (ops : List DelayOp) : DelayState :=
  ops.foldl applyDelayOp delayInit

/-- The operations that touch the event pool's lists. -/
inductive EventOp where
  | register (id fn ud : Nat)
  | delete (id : Nat)
  | trigger (id : Nat)
  | suspend (id : Nat)
  | resume (id : Nat)
  | dispatch
deriving DecidableEq, Repr

/-- Apply one event-pool operation (dropping statuses and traces). -/
def applyEventOp (s : EventState) : EventOp → EventState
  | EventOp.register id fn ud => (registerEvent s id fn ud).2
  | EventOp.delete id => deleteEvent s id
  | EventOp.trigger id => (triggerEvent s id).2
  | EventOp.suspend id => (suspendEvent s id).2
  | EventOp.resume id => (resumeEvent s id).2
  | EventOp.dispatch => (dispatchAllEvents s).1

/-- Run a sequence of event-pool operations from the initialised pool. -/
def runEventOps (ops : List EventOp) : EventState :=
  ops.foldl applyEventOp eventInit

/-- Pool invariant: the free and active chains together hold every pool
slot exactly once. -/
def delayPoolInv (s : DelayState) : Prop :=
  (s.free ++ s.active).Perm (List.range OS_DELAY_POOLSIZE)

/-- Pool invariant for the event pool. -/
def eventPoolInv (s : EventState) : Prop :=
  (s.free ++ s.active).Perm (List.range OS_EVENT_POOLSIZE)

/-- Sequence of `MicroOS_OSdelay` calls, collecting statuses in order. -/
def osDelayAll (s : DelayState) (t : Nat) : List Nat → List MStatus × DelayState
  | [] => ([], s)
  | i :: rest =>
      let r := osDelay s i t
      let r2 := osDelayAll r.2 t rest
      (r.1 :: r2.1, r2.2)

/-- Sequence of `MicroOS_RegisterEvent` calls with a common callback,
collecting statuses in order. -/
def registerEventAll (s : EventState) (fn ud : Nat) : List Nat → List MStatus × EventState
  | [] => ([], s)
  | i :: rest =>
      let r := registerEvent s i fn ud
      let r2 := registerEventAll r.2 fn ud rest
      (r.1 :: r2.1, r2.2)

/-- `n` repeated `MicroOS_AddTask` calls on the same arguments,
collecting statuses in order. -/
def addTaskReps (s : OSState) (id fn ud p : Nat) : Nat → List MStatus × OSState
  | 0 => ([], s)
  | n + 1 =>
      let r := addTask s id fn ud p
      let r2 := addTaskReps r.2 id fn ud p n
      (r.1 :: r2.1, r2.2)

/-- Sleep scenario: task 0 registered at tick 0 with period 100. -/
def sleepScenarioStart : OSState := (addTask osInit 0 5 0 100).2

/-- Sleep scenario: state after ten scheduler rounds (tick is now 10). -/
def sleepScenarioAt10 : OSState := (schedRounds sleepScenarioStart delayInit 10).1.1

/-- Sleep scenario: state right after `sleep_task(0, 50)` at tick 10. -/
def sleepScenarioSlept : OSState := (sleepTask sleepScenarioAt10 0 50).2

/-- Number of in-use slots of the task table. -/
def usedSlots (s : OSState) : Nat :=
  ((List.range MICROOS_TASK_SIZE).filter fun i => (s.tasks i).IsUsed).length

/-- The firing condition tested by `MicroOS_DispatchAllEvents` on each
visited node: `IsRunning && IsTriggered && IsUsed`. -/
def eventFireCond (n : EventNode) : Bool :=
  n.IsRunning && n.IsTriggered && n.IsUsed

/-- Dispatch-order scenario: events 1, 2, 3 registered in that order
(callbacks 11, 22, 33 and user data 1, 2, 3) and all three triggered. -/
def evOrderState : EventState :=
  (triggerEvent (triggerEvent (triggerEvent
    (registerEvent (registerEvent (registerEvent
      eventInit 1 11 1).2 2 22 2).2 3 33 3).2 1).2 2).2 3).2

/-- Trigger-persistence scenario: event 5 (callback 9, user data 4)
registered and then suspended. -/
def evSusp : EventState := (suspendEvent (registerEvent eventInit 5 9 4).2 5).2

/-- Trigger-persistence scenario: the suspended event 5 triggered. -/
def evTrig : EventState := (triggerEvent evSusp 5).2

/-- Trigger-persistence scenario: event 5 resumed after the trigger. -/
def evResumed : EventState := (resumeEvent evTrig 5).2

/-! ## Helper lemmas -/

theorem deleteTask_zeroes (s : OSState) (id : Nat) (hid : id < MICROOS_TASK_SIZE) :
    (deleteTask s id).2.tasks id = zeroTask := by
  have h8 : id % U8 = id := Nat.mod_eq_of_lt (by unfold MICROOS_TASK_SIZE at hid; unfold U8; omega)
  simp [deleteTask, h8, Nat.not_le.mpr hid]

/-! ## Claim theorems -/

/-- Claim C8: the claim states that `start_delay(id, ticks)` with
`ticks == 0` fails as `InvalidParameter`; the code has no such check: on a
fresh pool the call returns `MICROOS_OK`, installs an active descriptor
with countdown 0, and that descriptor never times out (`delay_done` stays
false after arbitrarily many ticks), contradicting the claim. -/
theorem claim_C8_zero_ticks_accepted :
    (osDelay delayInit 7 0).1 = MStatus.OK ∧
    (osDelay delayInit 7 0).1 ≠ MStatus.INVALID_PARAM ∧
    delayActiveIds (osDelay delayInit 7 0).2 = [7] ∧
    osDelayDone
      (osDelayTick (osDelayTick (osDelayTick (osDelayTick (osDelayTick
        (osDelay delayInit 7 0).2))))) 7 = false := by
  decide

/-- Claim C7: for every id within table bounds and every valid
registration, `register_task` followed by `delete_task` leaves the slot
equal to the all-zero record, which is exactly its initial
never-registered state. -/
theorem claim_C7_register_delete_roundtrip
    (s : OSState) (id fn ud p : Nat)
    (hid : id < MICROOS_TASK_SIZE) (hfn : fn ≠ 0)
    (hnum : s.TaskNum ≤ MICROOS_TASK_SIZE) :
    (addTask s id fn ud p).1 = MStatus.OK ∧
    (deleteTask (addTask s id fn ud p).2 id).2.tasks id = zeroTask ∧
    osInit.tasks id = zeroTask := by
  have h8 : id % U8 = id := Nat.mod_eq_of_lt (by unfold MICROOS_TASK_SIZE at hid; unfold U8; omega)
  refine ⟨?_, deleteTask_zeroes _ id hid, rfl⟩
  simp [addTask, h8, Nat.not_le.mpr hid, hfn, Nat.not_lt.mpr hnum]

/-- Witness for C7 at a concrete registration. -/
theorem claim_C7_witness :
    (addTask osInit 4 9 1 50).1 = MStatus.OK ∧
    (deleteTask (addTask osInit 4 9 1 50).2 4).2.tasks 4 = zeroTask ∧
    osInit.tasks 4 = zeroTask :=
  claim_C7_register_delete_roundtrip osInit 4 9 1 50 (by decide) (by decide) (by decide)

/-- Claim C9: for an in-bounds id and non-null callback (and the task
counter within budget), `register_task` succeeds even when the slot is
already in use, replacing callback, user data and period in place. -/
theorem claim_C9_register_overwrites
    (s : OSState) (id fn ud p : Nat)
    (hid : id < MICROOS_TASK_SIZE) (hfn : fn ≠ 0)
    (hnum : s.TaskNum ≤ MICROOS_TASK_SIZE)
    (hused : (s.tasks id).IsUsed = true) :
    (addTask s id fn ud p).1 = MStatus.OK ∧
    (addTask s id fn ud p).2.tasks id =
      { s.tasks id with fn := fn, ud := ud, Period := p % U32,
                        LastRunTime := 0, IsRunning := true,
                        IsUsed := true, IsSleeping := false } := by
  have h8 : id % U8 = id := Nat.mod_eq_of_lt (by unfold MICROOS_TASK_SIZE at hid; unfold U8; omega)
  constructor
  · simp [addTask, h8, Nat.not_le.mpr hid, hfn, Nat.not_lt.mpr hnum]
  · simp [addTask, h8, Nat.not_le.mpr hid, hfn, Nat.not_lt.mpr hnum]

/-- Witness for C9: slot 2 is in use, and re-registering it succeeds and
replaces its fields. -/
theorem claim_C9_witness :
    (addTask (addTask osInit 2 5 6 70).2 2 8 9 40).1 = MStatus.OK ∧
    (addTask (addTask osInit 2 5 6 70).2 2 8 9 40).2.tasks 2 =
      { (addTask osInit 2 5 6 70).2.tasks 2 with
        fn := 8, ud := 9, Period := 40 % U32, LastRunTime := 0,
        IsRunning := true, IsUsed := true, IsSleeping := false } :=
  claim_C9_register_overwrites (addTask osInit 2 5 6 70).2 2 8 9 40
    (by decide) (by decide) (by decide) (by decide)

set_option maxRecDepth 10000 in
/-- Claim C3: `sleep_task(id, 0)` fails as `InvalidParameter` and leaves
the state unchanged; with positive ticks on an in-use slot it sets the
sleeping flag, stores the duration and resets the last-run timestamp to
the current tick; consequently a task registered at tick 0 with period
100 that sleeps for 50 at tick 10 is skipped on every round up to tick
109 (its sleeping flag clearing at tick 60) and first runs at tick 110. -/
theorem claim_C3_sleep_period_interaction :
    (∀ (s : OSState) (id : Nat), sleepTask s id 0 = (MStatus.INVALID_PARAM, s)) ∧
    (∀ (s : OSState) (id ticks : Nat),
       id < MICROOS_TASK_SIZE → ticks % U32 ≠ 0 → (s.tasks id).IsUsed = true →
       (sleepTask s id ticks).1 = MStatus.OK ∧
       (sleepTask s id ticks).2.tasks id =
         { s.tasks id with IsSleeping := true, SleepTicks := ticks % U32,
                           LastRunTime := s.TickCount }) ∧
    (sleepScenarioAt10.TickCount = 10 ∧
     (sleepTask sleepScenarioAt10 0 50).1 = MStatus.OK ∧
     (sleepScenarioSlept.tasks 0).IsSleeping = true ∧
     (sleepScenarioSlept.tasks 0).SleepTicks = 50 ∧
     (sleepScenarioSlept.tasks 0).LastRunTime = 10 ∧
     ((schedRounds sleepScenarioSlept delayInit 49).1.1.tasks 0).IsSleeping = true ∧
     ((schedRounds sleepScenarioSlept delayInit 50).1.1.tasks 0).IsSleeping = false ∧
     (schedRounds sleepScenarioSlept delayInit 100).2 =
       List.replicate 99 [] ++ [[0]]) := by
  refine ⟨?_, ?_, ?_⟩
  · intro s id
    simp [sleepTask]
  · intro s id ticks hid ht hused
    have h8 : id % U8 = id :=
      Nat.mod_eq_of_lt (by unfold MICROOS_TASK_SIZE at hid; unfold U8; omega)
    constructor
    · simp [sleepTask, h8, Nat.not_le.mpr hid, ht, hused]
    · simp [sleepTask, h8, Nat.not_le.mpr hid, ht, hused]
  · decide

/-- Witness for C3 at concrete inputs. -/
theorem claim_C3_witness :
    sleepTask sleepScenarioStart 5 0 = (MStatus.INVALID_PARAM, sleepScenarioStart) ∧
    (sleepTask sleepScenarioStart 0 7).1 = MStatus.OK ∧
    (sleepTask sleepScenarioStart 0 7).2.tasks 0 =
      { sleepScenarioStart.tasks 0 with IsSleeping := true, SleepTicks := 7 % U32,
                                        LastRunTime := sleepScenarioStart.TickCount } :=
  ⟨claim_C3_sleep_period_interaction.1 sleepScenarioStart 5,
   claim_C3_sleep_period_interaction.2.1 sleepScenarioStart 0 7
     (by decide) (by decide) (by decide)⟩

/-- Claim C10: every successful `register_task` increments `TaskNum`
even when overwriting an in-use slot; `delete_task` decrements it only
when the slot's run flag is set; hence registering the same id
`MICROOS_TASK_SIZE + 1 = 11` times succeeds every time (counter 11, one
slot in use) and the twelfth call — and any registration to a genuinely
free slot — fails with `Error`. -/
theorem claim_C10_tasknum_counter :
    (∀ (s : OSState) (id fn ud p : Nat),
       id < MICROOS_TASK_SIZE → fn ≠ 0 → s.TaskNum ≤ MICROOS_TASK_SIZE →
       (addTask s id fn ud p).2.TaskNum = s.TaskNum + 1) ∧
    (∀ (s : OSState) (id : Nat),
       id < MICROOS_TASK_SIZE → (s.tasks id).IsRunning = false →
       (deleteTask s id).2.TaskNum = s.TaskNum) ∧
    (∀ (s : OSState) (id : Nat),
       id < MICROOS_TASK_SIZE → (s.tasks id).IsRunning = true →
       0 < s.TaskNum → s.TaskNum < U8 →
       (deleteTask s id).2.TaskNum = s.TaskNum - 1) ∧
    ((addTaskReps osInit 0 7 0 5 12).1 =
       List.replicate 11 MStatus.OK ++ [MStatus.ERROR] ∧
     (addTaskReps osInit 0 7 0 5 12).2.TaskNum = 11 ∧
     usedSlots (addTaskReps osInit 0 7 0 5 12).2 = 1 ∧
     ((addTaskReps osInit 0 7 0 5 12).2.tasks 1).IsUsed = false ∧
     (addTask (addTaskReps osInit 0 7 0 5 12).2 1 7 0 5).1 = MStatus.ERROR) := by
  refine ⟨?_, ?_, ?_, by decide⟩
  · intro s id fn ud p hid hfn hnum
    have h8 : id % U8 = id :=
      Nat.mod_eq_of_lt (by unfold MICROOS_TASK_SIZE at hid; unfold U8; omega)
    have hmod : (s.TaskNum + 1) % U8 = s.TaskNum + 1 :=
      Nat.mod_eq_of_lt (by unfold MICROOS_TASK_SIZE at hnum; unfold U8; omega)
    simp [addTask, h8, Nat.not_le.mpr hid, hfn, Nat.not_lt.mpr hnum, hmod]
  · intro s id hid hrun
    have h8 : id % U8 = id :=
      Nat.mod_eq_of_lt (by unfold MICROOS_TASK_SIZE at hid; unfold U8; omega)
    simp [deleteTask, h8, Nat.not_le.mpr hid, hrun]
  · intro s id hid hrun hpos hlt
    have h8 : id % U8 = id :=
      Nat.mod_eq_of_lt (by unfold MICROOS_TASK_SIZE at hid; unfold U8; omega)
    have hmod : (s.TaskNum + U8 - 1) % U8 = s.TaskNum - 1 := by
      unfold U8 at hlt ⊢
      omega
    simp [deleteTask, h8, Nat.not_le.mpr hid, hrun, hmod]

/-- Witness for C10 at concrete inputs. -/
theorem claim_C10_witness :
    (addTask (addTask osInit 3 7 0 5).2 3 7 0 5).2.TaskNum =
      (addTask osInit 3 7 0 5).2.TaskNum + 1 ∧
    (deleteTask (suspendTask (addTask osInit 3 7 0 5).2 3).2 3).2.TaskNum =
      (suspendTask (addTask osInit 3 7 0 5).2 3).2.TaskNum ∧
    (deleteTask (addTask osInit 3 7 0 5).2 3).2.TaskNum =
      (addTask osInit 3 7 0 5).2.TaskNum - 1 :=
  ⟨claim_C10_tasknum_counter.1 (addTask osInit 3 7 0 5).2 3 7 0 5
     (by decide) (by decide) (by decide),
   claim_C10_tasknum_counter.2.1 (suspendTask (addTask osInit 3 7 0 5).2 3).2 3
     (by decide) (by decide),
   claim_C10_tasknum_counter.2.2.1 (addTask osInit 3 7 0 5).2 3
     (by decide) (by decide) (by decide) (by decide)⟩

theorem tickWalk_not_mem (l : List Nat) :
    ∀ (f : Nat → DelayNode) (k : Nat), k ∉ l → tickWalk f l k = f k := by
  induction l with
  | nil => intro f k _; rfl
  | cons j rest ih =>
      intro f k hk
      simp only [List.mem_cons, not_or] at hk
      rw [tickWalk, ih _ k hk.2]
      simp [hk.1]

theorem tickWalk_head (f : Nat → DelayNode) (h : Nat) (act : List Nat)
    (hna : h ∉ act) :
    tickWalk f (h :: act) h = tickDelayNode (f h) := by
  rw [tickWalk, tickWalk_not_mem act _ h hna]
  simp

theorem osDelayDone_head (s : DelayState) (h : Nat) (act : List Nat) (id : Nat)
    (hid : id < U8) (hact : s.active = h :: act) (hId : (s.node h).id = id) :
    osDelayDone s id = (s.node h).IsTimeout := by
  have hfind : List.find? (fun j => (s.node j).id == id) (h :: act) = some h :=
    List.find?_cons_of_pos _ (by simp [hId])
  simp only [osDelayDone, Nat.mod_eq_of_lt hid, hact, hfind]

theorem osDelayTick_head (s : DelayState) (h : Nat) (act : List Nat)
    (hact : s.active = h :: act) (hna : h ∉ act) :
    (osDelayTick s).active = h :: act ∧
    (osDelayTick s).node h = tickDelayNode (s.node h) := by
  constructor
  · simp [osDelayTick, hact]
  · simp only [osDelayTick, hact]
    exact tickWalk_head s.node h act hna

/-- Claim C2: starting a 3-tick delay on a fresh id (with a non-exhausted,
well-formed pool) succeeds and makes `delay_done` read false after one and
two ticks and true after the third, the descriptor staying on the active
list throughout. -/
theorem claim_C2_delay_countdown_exactness
    (s : DelayState) (id : Nat)
    (hid : id < U8)
    (hnd : (s.free ++ s.active).Nodup)
    (hfresh : id ∉ delayActiveIds s)
    (hfree : s.free ≠ []) :
    (osDelay s id 3).1 = MStatus.OK ∧
    osDelayDone (osDelayTick (osDelay s id 3).2) id = false ∧
    osDelayDone (osDelayTick (osDelayTick (osDelay s id 3).2)) id = false ∧
    osDelayDone (osDelayTick (osDelayTick (osDelayTick (osDelay s id 3).2))) id = true ∧
    id ∈ delayActiveIds (osDelayTick (osDelayTick (osDelayTick (osDelay s id 3).2))) := by
  obtain ⟨h, f2, hf⟩ : ∃ h f2, s.free = h :: f2 := by
    cases hcf : s.free with
    | nil => exact absurd hcf hfree
    | cons a b => exact ⟨a, b, rfl⟩
  have hfind : s.active.find? (fun j => (s.node j).id == id % U8) = none := by
    rw [List.find?_eq_none]
    intro j hj
    have : (s.node j).id ∈ delayActiveIds s :=
      List.mem_map.mpr ⟨j, hj, rfl⟩
    simp only [Nat.mod_eq_of_lt hid, beq_iff_eq]
    intro heq
    exact hfresh (heq ▸ this)
  have hna : h ∉ s.active := by
    rw [hf] at hnd
    have := (List.nodup_cons.mp hnd).1
    intro hmem
    exact this (List.mem_append.mpr (Or.inr hmem))
  have hidm : id % U8 = id := Nat.mod_eq_of_lt hid
  have h3m : (3 : Nat) % U32 = 3 := by decide
  have hfind2 : s.active.find? (fun j => (s.node j).id == id) = none := by
    rw [← hidm]; exact hfind
  set s1 : DelayState :=
    { free := f2
      active := h :: s.active
      node := fun k => if k = h then ⟨id, 3, false⟩ else s.node k } with hs1
  have hstep : osDelay s id 3 = (MStatus.OK, s1) := by
    simp only [osDelay, hidm, h3m, hfind2, hf, hs1]
  have hn1 : s1.node h = ⟨id, 3, false⟩ := by
    simp [hs1]
  have h1 := osDelayTick_head s1 h s.active rfl hna
  have hn2 : (osDelayTick s1).node h = ⟨id, 2, false⟩ := by
    rw [h1.2, hn1]; simp [tickDelayNode]
  have h2 := osDelayTick_head (osDelayTick s1) h s.active h1.1 hna
  have hn3 : (osDelayTick (osDelayTick s1)).node h = ⟨id, 1, false⟩ := by
    rw [h2.2, hn2]; simp [tickDelayNode]
  have h3 := osDelayTick_head (osDelayTick (osDelayTick s1)) h s.active h2.1 hna
  have hn4 : (osDelayTick (osDelayTick (osDelayTick s1))).node h = ⟨id, 0, true⟩ := by
    rw [h3.2, hn3]; simp [tickDelayNode]
  rw [hstep]
  refine ⟨rfl, ?_, ?_, ?_, ?_⟩
  · show osDelayDone (osDelayTick s1) id = false
    rw [osDelayDone_head (osDelayTick s1) h s.active id hid h1.1 (by rw [hn2]), hn2]
  · show osDelayDone (osDelayTick (osDelayTick s1)) id = false
    rw [osDelayDone_head (osDelayTick (osDelayTick s1)) h s.active id hid h2.1
          (by rw [hn3]), hn3]
  · show osDelayDone (osDelayTick (osDelayTick (osDelayTick s1))) id = true
    rw [osDelayDone_head (osDelayTick (osDelayTick (osDelayTick s1))) h s.active id hid
          h3.1 (by rw [hn4]), hn4]
  · show id ∈ delayActiveIds (osDelayTick (osDelayTick (osDelayTick s1)))
    unfold delayActiveIds
    rw [h3.1]
    exact List.mem_map.mpr ⟨h, List.mem_cons_self _ _, by rw [hn4]⟩

/-- Witness for C2 at a concrete fresh pool. -/
theorem claim_C2_witness :
    (osDelay delayInit 6 3).1 = MStatus.OK ∧
    osDelayDone (osDelayTick (osDelay delayInit 6 3).2) 6 = false ∧
    osDelayDone (osDelayTick (osDelayTick (osDelay delayInit 6 3).2)) 6 = false ∧
    osDelayDone (osDelayTick (osDelayTick (osDelayTick (osDelay delayInit 6 3).2))) 6 = true ∧
    6 ∈ delayActiveIds (osDelayTick (osDelayTick (osDelayTick (osDelay delayInit 6 3).2))) :=
  claim_C2_delay_countdown_exactness delayInit 6 (by decide) (by decide)
    (by decide) (by decide)

theorem removeWalk_perm (f : Nat → DelayNode) (i : Nat) :
    ∀ (l : List Nat) (j : Nat) (l2 : List Nat),
      removeWalk f i l = some (j, l2) → l.Perm (j :: l2) := by
  intro l
  induction l with
  | nil => intro j l2 hw; simp [removeWalk] at hw
  | cons x rest ih =>
      intro j l2 hw
      rw [removeWalk] at hw
      by_cases hx : ((f x).id == i) = true
      · rw [if_pos hx] at hw
        have hw2 := Option.some.inj hw
        have hj : x = j := congrArg Prod.fst hw2
        have hl : rest = l2 := congrArg Prod.snd hw2
        subst hj; subst hl
        exact List.Perm.refl _
      · rw [if_neg hx] at hw
        cases hr : removeWalk f i rest with
        | none => rw [hr] at hw; exact absurd hw (by simp)
        | some p =>
            obtain ⟨k, rest2⟩ := p
            rw [hr] at hw
            have hw2 := Option.some.inj hw
            have hj : k = j := congrArg Prod.fst hw2
            have hl : x :: rest2 = l2 := congrArg Prod.snd hw2
            subst hj; subst hl
            exact ((ih _ _ hr).cons x).trans (List.Perm.swap k x rest2)

theorem eventRemoveWalk_perm (f : Nat → EventNode) (i : Nat) :
    ∀ (l : List Nat) (j : Nat) (l2 : List Nat),
      eventRemoveWalk f i l = some (j, l2) → l.Perm (j :: l2) := by
  intro l
  induction l with
  | nil => intro j l2 hw; simp [eventRemoveWalk] at hw
  | cons x rest ih =>
      intro j l2 hw
      rw [eventRemoveWalk] at hw
      by_cases hx : ((f x).id == i) = true
      · rw [if_pos hx] at hw
        have hw2 := Option.some.inj hw
        have hj : x = j := congrArg Prod.fst hw2
        have hl : rest = l2 := congrArg Prod.snd hw2
        subst hj; subst hl
        exact List.Perm.refl _
      · rw [if_neg hx] at hw
        cases hr : eventRemoveWalk f i rest with
        | none => rw [hr] at hw; exact absurd hw (by simp)
        | some p =>
            obtain ⟨k, rest2⟩ := p
            rw [hr] at hw
            have hw2 := Option.some.inj hw
            have hj : k = j := congrArg Prod.fst hw2
            have hl : x :: rest2 = l2 := congrArg Prod.snd hw2
            subst hj; subst hl
            exact ((ih _ _ hr).cons x).trans (List.Perm.swap k x rest2)

theorem applyDelayOp_perm (s : DelayState) (op : DelayOp) :
    ((applyDelayOp s op).free ++ (applyDelayOp s op).active).Perm
      (s.free ++ s.active) := by
  cases op with
  | start id t =>
      show ((osDelay s id t).2.free ++ (osDelay s id t).2.active).Perm
        (s.free ++ s.active)
      cases hfind : s.active.find? (fun j => (s.node j).id == id % U8) with
      | some j =>
          simp only [osDelay, hfind]
          exact List.Perm.refl _
      | none =>
          cases hfr : s.free with
          | nil =>
              simp only [osDelay, hfind, hfr]
              exact List.Perm.refl _
          | cons h rest =>
              simp only [osDelay, hfind, hfr]
              exact List.perm_middle
  | remove id =>
      show ((osDelayRemove s id).free ++ (osDelayRemove s id).active).Perm
        (s.free ++ s.active)
      cases hw : removeWalk s.node (id % U8) s.active with
      | none =>
          simp only [osDelayRemove, hw]
          exact List.Perm.refl _
      | some p =>
          obtain ⟨j, act⟩ := p
          simp only [osDelayRemove, hw]
          have hperm : s.active.Perm (j :: act) := removeWalk_perm _ _ _ _ _ hw
          have h1 : ((j :: s.free) ++ act).Perm (s.free ++ j :: act) :=
            List.perm_middle.symm
          exact h1.trans (hperm.symm.append_left s.free)
  | tick => exact List.Perm.refl _

theorem applyEventOp_perm (s : EventState) (op : EventOp) :
    ((applyEventOp s op).free ++ (applyEventOp s op).active).Perm
      (s.free ++ s.active) := by
  cases op with
  | register id fn ud =>
      show ((registerEvent s id fn ud).2.free ++
        (registerEvent s id fn ud).2.active).Perm (s.free ++ s.active)
      by_cases hfn : fn = 0
      · simp only [registerEvent, if_pos hfn]
        exact List.Perm.refl _
      · cases hfind : s.active.find? (fun j => (s.node j).id == id % U8) with
        | some j =>
            simp only [registerEvent, if_neg hfn, hfind]
            exact List.Perm.refl _
        | none =>
            cases hfr : s.free with
            | nil =>
                simp only [registerEvent, if_neg hfn, hfind, hfr]
                exact List.Perm.refl _
            | cons h rest =>
                simp only [registerEvent, if_neg hfn, hfind, hfr]
                exact List.perm_middle
  | delete id =>
      show ((deleteEvent s id).free ++ (deleteEvent s id).active).Perm
        (s.free ++ s.active)
      cases hw : eventRemoveWalk s.node (id % U8) s.active with
      | none =>
          simp only [deleteEvent, hw]
          exact List.Perm.refl _
      | some p =>
          obtain ⟨j, act⟩ := p
          simp only [deleteEvent, hw]
          have hperm : s.active.Perm (j :: act) := eventRemoveWalk_perm _ _ _ _ _ hw
          have h1 : ((j :: s.free) ++ act).Perm (s.free ++ j :: act) :=
            List.perm_middle.symm
          exact h1.trans (hperm.symm.append_left s.free)
  | trigger id =>
      show ((triggerEvent s id).2.free ++ (triggerEvent s id).2.active).Perm
        (s.free ++ s.active)
      cases hfind : s.active.find? (fun j => (s.node j).id == id % U8) with
      | some j =>
          simp only [triggerEvent, hfind]
          exact List.Perm.refl _
      | none =>
          simp only [triggerEvent, hfind]
          exact List.Perm.refl _
  | suspend id =>
      show ((suspendEvent s id).2.free ++ (suspendEvent s id).2.active).Perm
        (s.free ++ s.active)
      cases hfind : s.active.find? (fun j => (s.node j).id == id % U8) with
      | some j =>
          simp only [suspendEvent, hfind]
          exact List.Perm.refl _
      | none =>
          simp only [suspendEvent, hfind]
          exact List.Perm.refl _
  | resume id =>
      show ((resumeEvent s id).2.free ++ (resumeEvent s id).2.active).Perm
        (s.free ++ s.active)
      cases hfind : s.active.find? (fun j => (s.node j).id == id % U8) with
      | some j =>
          simp only [resumeEvent, hfind]
          exact List.Perm.refl _
      | none =>
          simp only [resumeEvent, hfind]
          exact List.Perm.refl _
  | dispatch => exact List.Perm.refl _

theorem foldl_delayOps_inv (ops : List DelayOp) :
    ∀ s : DelayState, delayPoolInv s → delayPoolInv (ops.foldl applyDelayOp s) := by
  induction ops with
  | nil => intro s hs; exact hs
  | cons op rest ih =>
      intro s hs
      exact ih _ ((applyDelayOp_perm s op).trans hs)

theorem foldl_eventOps_inv (ops : List EventOp) :
    ∀ s : EventState, eventPoolInv s → eventPoolInv (ops.foldl applyEventOp s) := by
  induction ops with
  | nil => intro s hs; exact hs
  | cons op rest ih =>
      intro s hs
      exact ih _ ((applyEventOp_perm s op).trans hs)

/-- Claim C1: after initialisation and any sequence of delay-pool
operations (start, remove, tick), the free and active lists of the delay
pool hold every pool slot exactly once — so their lengths sum to the
capacity and they are disjoint; likewise for the event pool under any
sequence of register, delete, trigger, suspend, resume and dispatch. -/
theorem claim_C1_pool_invariant :
    (∀ ops : List DelayOp,
       (runDelayOps ops).free.length + (runDelayOps ops).active.length =
         OS_DELAY_POOLSIZE ∧
       (runDelayOps ops).free.Disjoint (runDelayOps ops).active ∧
       delayPoolInv (runDelayOps ops)) ∧
    (∀ ops : List EventOp,
       (runEventOps ops).free.length + (runEventOps ops).active.length =
         OS_EVENT_POOLSIZE ∧
       (runEventOps ops).free.Disjoint (runEventOps ops).active ∧
       eventPoolInv (runEventOps ops)) := by
  constructor
  · intro ops
    have hinv : delayPoolInv (runDelayOps ops) :=
      foldl_delayOps_inv ops delayInit (by simp [delayPoolInv, delayInit])
    have hlen := hinv.length_eq
    rw [List.length_append, List.length_range] at hlen
    have hnd : ((runDelayOps ops).free ++ (runDelayOps ops).active).Nodup :=
      hinv.symm.nodup (List.nodup_range _)
    exact ⟨hlen, (List.nodup_append.mp hnd).2.2, hinv⟩
  · intro ops
    have hinv : eventPoolInv (runEventOps ops) :=
      foldl_eventOps_inv ops eventInit (by simp [eventPoolInv, eventInit])
    have hlen := hinv.length_eq
    rw [List.length_append, List.length_range] at hlen
    have hnd : ((runEventOps ops).free ++ (runEventOps ops).active).Nodup :=
      hinv.symm.nodup (List.nodup_range _)
    exact ⟨hlen, (List.nodup_append.mp hnd).2.2, hinv⟩

theorem find_none_of_fresh (s : DelayState) (i : Nat)
    (hfresh : i ∉ delayActiveIds s) :
    s.active.find? (fun j => (s.node j).id == i) = none := by
  rw [List.find?_eq_none]
  intro j hj
  simp only [beq_iff_eq]
  intro heq
  exact hfresh (heq ▸ List.mem_map.mpr ⟨j, hj, rfl⟩)

theorem eventFind_none_of_fresh (s : EventState) (i : Nat)
    (hfresh : i ∉ eventActiveIds s) :
    s.active.find? (fun j => (s.node j).id == i) = none := by
  rw [List.find?_eq_none]
  intro j hj
  simp only [beq_iff_eq]
  intro heq
  exact hfresh (heq ▸ List.mem_map.mpr ⟨j, hj, rfl⟩)

theorem osDelay_fresh_eq (s : DelayState) (i t h : Nat) (f2 : List Nat)
    (hi : i < U8) (hf : s.free = h :: f2) (hfresh : i ∉ delayActiveIds s) :
    osDelay s i t =
      (MStatus.OK,
       { free := f2
         active := h :: s.active
         node := fun k => if k = h then ⟨i, t % U32, false⟩ else s.node k }) := by
  have hidm : i % U8 = i := Nat.mod_eq_of_lt hi
  have hfind := find_none_of_fresh s i hfresh
  simp only [osDelay, hidm, hfind, hf]

theorem osDelay_busy (s : DelayState) (i t : Nat) (hi : i < U8)
    (hfresh : i ∉ delayActiveIds s) (hf : s.free = []) :
    osDelay s i t = (MStatus.BUSY, s) := by
  have hidm : i % U8 = i := Nat.mod_eq_of_lt hi
  have hfind := find_none_of_fresh s i hfresh
  simp only [osDelay, hidm, hfind, hf]

theorem osDelay_fresh_props (s : DelayState) (i t : Nat)
    (hi : i < U8) (hfresh : i ∉ delayActiveIds s) (hfr : s.free ≠ [])
    (hnd : (s.free ++ s.active).Nodup) :
    (osDelay s i t).1 = MStatus.OK ∧
    (osDelay s i t).2.free.length + 1 = s.free.length ∧
    delayActiveIds (osDelay s i t).2 = i :: delayActiveIds s ∧
    ((osDelay s i t).2.free ++ (osDelay s i t).2.active).Nodup := by
  obtain ⟨h, f2, hf⟩ : ∃ h f2, s.free = h :: f2 := by
    cases hcf : s.free with
    | nil => exact absurd hcf hfr
    | cons a b => exact ⟨a, b, rfl⟩
  have heq := osDelay_fresh_eq s i t h f2 hi hf hfresh
  have hna : h ∉ s.active := by
    rw [hf] at hnd
    have h1 := (List.nodup_cons.mp hnd).1
    intro hmem
    exact h1 (List.mem_append.mpr (Or.inr hmem))
  rw [heq]
  refine ⟨rfl, by simp [hf], ?_, ?_⟩
  · show ((h :: s.active).map fun j =>
      ((fun k => if k = h then (⟨i, t % U32, false⟩ : DelayNode) else s.node k) j).id) =
      i :: delayActiveIds s
    rw [List.map_cons]
    have hhead :
        ((fun k => if k = h then (⟨i, t % U32, false⟩ : DelayNode) else s.node k) h).id = i := by
      simp
    rw [hhead]
    have htail : ∀ j ∈ s.active,
        ((fun k => if k = h then (⟨i, t % U32, false⟩ : DelayNode) else s.node k) j).id =
          (s.node j).id := by
      intro j hj
      have : j ≠ h := fun hjh => hna (hjh ▸ hj)
      simp [this]
    rw [List.map_congr_left htail]
    rfl
  · show (f2 ++ h :: s.active).Nodup
    have hperm : (f2 ++ h :: s.active).Perm ((h :: f2) ++ s.active) := List.perm_middle
    rw [hf] at hnd
    exact hperm.symm.nodup hnd

theorem osDelayAll_fresh (t : Nat) (ids : List Nat) :
    ∀ s : DelayState,
      (∀ i ∈ ids, i < U8) → ids.Nodup →
      (∀ i ∈ ids, i ∉ delayActiveIds s) →
      ids.length ≤ s.free.length →
      (s.free ++ s.active).Nodup →
      (osDelayAll s t ids).1 = List.replicate ids.length MStatus.OK ∧
      (osDelayAll s t ids).2.free.length + ids.length = s.free.length ∧
      delayActiveIds (osDelayAll s t ids).2 = ids.reverse ++ delayActiveIds s ∧
      ((osDelayAll s t ids).2.free ++ (osDelayAll s t ids).2.active).Nodup := by
  induction ids with
  | nil =>
      intro s _ _ _ _ hnd
      exact ⟨rfl, rfl, by simp [osDelayAll], hnd⟩
  | cons i rest ih =>
      intro s hb hnodup hfresh hlen hnd
      have hi : i < U8 := hb i (List.mem_cons_self _ _)
      have hfi : i ∉ delayActiveIds s := hfresh i (List.mem_cons_self _ _)
      have hfr : s.free ≠ [] := by
        intro h0
        rw [h0] at hlen
        simp at hlen
      obtain ⟨hst, hflen, hact, hnd2⟩ := osDelay_fresh_props s i t hi hfi hfr hnd
      have hb2 : ∀ x ∈ rest, x < U8 := fun x hx => hb x (List.mem_cons_of_mem _ hx)
      have hnodup2 : rest.Nodup := (List.nodup_cons.mp hnodup).2
      have hine : i ∉ rest := (List.nodup_cons.mp hnodup).1
      have hfresh2 : ∀ x ∈ rest, x ∉ delayActiveIds (osDelay s i t).2 := by
        intro x hx
        rw [hact]
        simp only [List.mem_cons, not_or]
        exact ⟨fun hxi => hine (hxi ▸ hx), hfresh x (List.mem_cons_of_mem _ hx)⟩
      have hlen2 : rest.length ≤ (osDelay s i t).2.free.length := by
        have : (i :: rest).length = rest.length + 1 := rfl
        omega
      obtain ⟨ih1, ih2, ih3, ih4⟩ := ih (osDelay s i t).2 hb2 hnodup2 hfresh2 hlen2 hnd2
      refine ⟨?_, ?_, ?_, ?_⟩
      · show ((osDelay s i t).1 :: (osDelayAll (osDelay s i t).2 t rest).1) =
          List.replicate (i :: rest).length MStatus.OK
        rw [hst, ih1]
        rfl
      · show (osDelayAll (osDelay s i t).2 t rest).2.free.length + (i :: rest).length =
          s.free.length
        have : (i :: rest).length = rest.length + 1 := rfl
        omega
      · show delayActiveIds (osDelayAll (osDelay s i t).2 t rest).2 =
          (i :: rest).reverse ++ delayActiveIds s
        rw [ih3, hact, List.reverse_cons, List.append_assoc]
        rfl
      · exact ih4

theorem registerEvent_fresh_eq (s : EventState) (i fn ud h : Nat) (f2 : List Nat)
    (hi : i < U8) (hfn : fn ≠ 0) (hf : s.free = h :: f2)
    (hfresh : i ∉ eventActiveIds s) :
    registerEvent s i fn ud =
      (MStatus.OK,
       { free := f2
         active := h :: s.active
         node := fun k => if k = h then ⟨i, true, true, false, fn, ud⟩ else s.node k
         CurrentEventId := s.CurrentEventId
         EventNum := (s.EventNum + 1) % U8 }) := by
  have hidm : i % U8 = i := Nat.mod_eq_of_lt hi
  have hfind := eventFind_none_of_fresh s i hfresh
  simp only [registerEvent, if_neg hfn, hidm, hfind, hf]

theorem registerEvent_busy (s : EventState) (i fn ud : Nat) (hi : i < U8)
    (hfn : fn ≠ 0) (hfresh : i ∉ eventActiveIds s) (hf : s.free = []) :
    registerEvent s i fn ud = (MStatus.BUSY, s) := by
  have hidm : i % U8 = i := Nat.mod_eq_of_lt hi
  have hfind := eventFind_none_of_fresh s i hfresh
  simp only [registerEvent, if_neg hfn, hidm, hfind, hf]

theorem registerEvent_fresh_props (s : EventState) (i fn ud : Nat)
    (hi : i < U8) (hfn : fn ≠ 0) (hfresh : i ∉ eventActiveIds s) (hfr : s.free ≠ [])
    (hnd : (s.free ++ s.active).Nodup) :
    (registerEvent s i fn ud).1 = MStatus.OK ∧
    (registerEvent s i fn ud).2.free.length + 1 = s.free.length ∧
    eventActiveIds (registerEvent s i fn ud).2 = i :: eventActiveIds s ∧
    ((registerEvent s i fn ud).2.free ++ (registerEvent s i fn ud).2.active).Nodup := by
  obtain ⟨h, f2, hf⟩ : ∃ h f2, s.free = h :: f2 := by
    cases hcf : s.free with
    | nil => exact absurd hcf hfr
    | cons a b => exact ⟨a, b, rfl⟩
  have heq := registerEvent_fresh_eq s i fn ud h f2 hi hfn hf hfresh
  have hna : h ∉ s.active := by
    rw [hf] at hnd
    have h1 := (List.nodup_cons.mp hnd).1
    intro hmem
    exact h1 (List.mem_append.mpr (Or.inr hmem))
  rw [heq]
  refine ⟨rfl, by simp [hf], ?_, ?_⟩
  · show ((h :: s.active).map fun j =>
      ((fun k => if k = h then (⟨i, true, true, false, fn, ud⟩ : EventNode)
                 else s.node k) j).id) = i :: eventActiveIds s
    rw [List.map_cons]
    have hhead :
        ((fun k => if k = h then (⟨i, true, true, false, fn, ud⟩ : EventNode)
                   else s.node k) h).id = i := by
      simp
    rw [hhead]
    have htail : ∀ j ∈ s.active,
        ((fun k => if k = h then (⟨i, true, true, false, fn, ud⟩ : EventNode)
                   else s.node k) j).id = (s.node j).id := by
      intro j hj
      have : j ≠ h := fun hjh => hna (hjh ▸ hj)
      simp [this]
    rw [List.map_congr_left htail]
    rfl
  · show (f2 ++ h :: s.active).Nodup
    have hperm : (f2 ++ h :: s.active).Perm ((h :: f2) ++ s.active) := List.perm_middle
    rw [hf] at hnd
    exact hperm.symm.nodup hnd

theorem registerEventAll_fresh (fn ud : Nat) (hfn : fn ≠ 0) (ids : List Nat) :
    ∀ s : EventState,
      (∀ i ∈ ids, i < U8) → ids.Nodup →
      (∀ i ∈ ids, i ∉ eventActiveIds s) →
      ids.length ≤ s.free.length →
      (s.free ++ s.active).Nodup →
      (registerEventAll s fn ud ids).1 = List.replicate ids.length MStatus.OK ∧
      (registerEventAll s fn ud ids).2.free.length + ids.length = s.free.length ∧
      eventActiveIds (registerEventAll s fn ud ids).2 =
        ids.reverse ++ eventActiveIds s ∧
      ((registerEventAll s fn ud ids).2.free ++
        (registerEventAll s fn ud ids).2.active).Nodup := by
  induction ids with
  | nil =>
      intro s _ _ _ _ hnd
      exact ⟨rfl, rfl, by simp [registerEventAll], hnd⟩
  | cons i rest ih =>
      intro s hb hnodup hfresh hlen hnd
      have hi : i < U8 := hb i (List.mem_cons_self _ _)
      have hfi : i ∉ eventActiveIds s := hfresh i (List.mem_cons_self _ _)
      have hfr : s.free ≠ [] := by
        intro h0
        rw [h0] at hlen
        simp at hlen
      obtain ⟨hst, hflen, hact, hnd2⟩ :=
        registerEvent_fresh_props s i fn ud hi hfn hfi hfr hnd
      have hb2 : ∀ x ∈ rest, x < U8 := fun x hx => hb x (List.mem_cons_of_mem _ hx)
      have hnodup2 : rest.Nodup := (List.nodup_cons.mp hnodup).2
      have hine : i ∉ rest := (List.nodup_cons.mp hnodup).1
      have hfresh2 : ∀ x ∈ rest, x ∉ eventActiveIds (registerEvent s i fn ud).2 := by
        intro x hx
        rw [hact]
        simp only [List.mem_cons, not_or]
        exact ⟨fun hxi => hine (hxi ▸ hx), hfresh x (List.mem_cons_of_mem _ hx)⟩
      have hlen2 : rest.length ≤ (registerEvent s i fn ud).2.free.length := by
        have : (i :: rest).length = rest.length + 1 := rfl
        omega
      obtain ⟨ih1, ih2, ih3, ih4⟩ :=
        ih (registerEvent s i fn ud).2 hb2 hnodup2 hfresh2 hlen2 hnd2
      refine ⟨?_, ?_, ?_, ?_⟩
      · show ((registerEvent s i fn ud).1 ::
          (registerEventAll (registerEvent s i fn ud).2 fn ud rest).1) =
          List.replicate (i :: rest).length MStatus.OK
        rw [hst, ih1]
        rfl
      · show (registerEventAll (registerEvent s i fn ud).2 fn ud rest).2.free.length +
          (i :: rest).length = s.free.length
        have : (i :: rest).length = rest.length + 1 := rfl
        omega
      · show eventActiveIds (registerEventAll (registerEvent s i fn ud).2 fn ud rest).2 =
          (i :: rest).reverse ++ eventActiveIds s
        rw [ih3, hact, List.reverse_cons, List.append_assoc]
        rfl
      · exact ih4

/-- Claim C6: from a freshly initialised pool of capacity 10 (delay pool
or event pool), registering 10 distinct ids succeeds every time, and a
further registration with a fresh id fails with `Busy`, leaving the pool
state unchanged. -/
theorem claim_C6_pool_exhaustion :
    (∀ (ids : List Nat) (id2 t : Nat),
       (∀ i ∈ ids, i < U8) → ids.Nodup → ids.length = OS_DELAY_POOLSIZE →
       id2 < U8 → id2 ∉ ids →
       (osDelayAll delayInit t ids).1 =
         List.replicate OS_DELAY_POOLSIZE MStatus.OK ∧
       osDelay (osDelayAll delayInit t ids).2 id2 t =
         (MStatus.BUSY, (osDelayAll delayInit t ids).2)) ∧
    (∀ (ids : List Nat) (id2 fn ud : Nat), fn ≠ 0 →
       (∀ i ∈ ids, i < U8) → ids.Nodup → ids.length = OS_EVENT_POOLSIZE →
       id2 < U8 → id2 ∉ ids →
       (registerEventAll eventInit fn ud ids).1 =
         List.replicate OS_EVENT_POOLSIZE MStatus.OK ∧
       registerEvent (registerEventAll eventInit fn ud ids).2 id2 fn ud =
         (MStatus.BUSY, (registerEventAll eventInit fn ud ids).2)) := by
  constructor
  · intro ids id2 t hb hnodup hlen hi2 hni
    have hfreshInit : ∀ i ∈ ids, i ∉ delayActiveIds delayInit := by
      intro i _
      simp [delayActiveIds, delayInit]
    have hlenInit : ids.length ≤ delayInit.free.length := by
      simp [delayInit, hlen, OS_DELAY_POOLSIZE]
    have hndInit : (delayInit.free ++ delayInit.active).Nodup := by
      simp [delayInit, List.nodup_range]
    obtain ⟨h1, h2, h3, h4⟩ :=
      osDelayAll_fresh t ids delayInit hb hnodup hfreshInit hlenInit hndInit
    refine ⟨by rw [h1, hlen], ?_⟩
    have hfe : (osDelayAll delayInit t ids).2.free = [] := by
      have h10 : delayInit.free.length = OS_DELAY_POOLSIZE := by
        simp [delayInit]
      have : (osDelayAll delayInit t ids).2.free.length = 0 := by omega
      exact List.length_eq_zero.mp this
    have hfresh2 : id2 ∉ delayActiveIds (osDelayAll delayInit t ids).2 := by
      rw [h3]
      simp [delayActiveIds, delayInit, List.mem_reverse, hni]
    exact osDelay_busy _ id2 t hi2 hfresh2 hfe
  · intro ids id2 fn ud hfn hb hnodup hlen hi2 hni
    have hfreshInit : ∀ i ∈ ids, i ∉ eventActiveIds eventInit := by
      intro i _
      simp [eventActiveIds, eventInit]
    have hlenInit : ids.length ≤ eventInit.free.length := by
      simp [eventInit, hlen, OS_EVENT_POOLSIZE]
    have hndInit : (eventInit.free ++ eventInit.active).Nodup := by
      simp [eventInit, List.nodup_range]
    obtain ⟨h1, h2, h3, h4⟩ :=
      registerEventAll_fresh fn ud hfn ids eventInit hb hnodup hfreshInit hlenInit hndInit
    refine ⟨by rw [h1, hlen], ?_⟩
    have hfe : (registerEventAll eventInit fn ud ids).2.free = [] := by
      have h10 : eventInit.free.length = OS_EVENT_POOLSIZE := by
        simp [eventInit]
      have : (registerEventAll eventInit fn ud ids).2.free.length = 0 := by omega
      exact List.length_eq_zero.mp this
    have hfresh2 : id2 ∉ eventActiveIds (registerEventAll eventInit fn ud ids).2 := by
      rw [h3]
      simp [eventActiveIds, eventInit, List.mem_reverse, hni]
    exact registerEvent_busy _ id2 fn ud hi2 hfn hfresh2 hfe

/-- Witness for C6 with the concrete ids 0..9 and the fresh id 10. -/
theorem claim_C6_witness :
    ((osDelayAll delayInit 3 [0, 1, 2, 3, 4, 5, 6, 7, 8, 9]).1 =
       List.replicate OS_DELAY_POOLSIZE MStatus.OK ∧
     osDelay (osDelayAll delayInit 3 [0, 1, 2, 3, 4, 5, 6, 7, 8, 9]).2 10 3 =
       (MStatus.BUSY, (osDelayAll delayInit 3 [0, 1, 2, 3, 4, 5, 6, 7, 8, 9]).2)) ∧
    ((registerEventAll eventInit 7 4 [0, 1, 2, 3, 4, 5, 6, 7, 8, 9]).1 =
       List.replicate OS_EVENT_POOLSIZE MStatus.OK ∧
     registerEvent (registerEventAll eventInit 7 4 [0, 1, 2, 3, 4, 5, 6, 7, 8, 9]).2 10 7 4 =
       (MStatus.BUSY, (registerEventAll eventInit 7 4 [0, 1, 2, 3, 4, 5, 6, 7, 8, 9]).2)) :=
  ⟨claim_C6_pool_exhaustion.1 [0, 1, 2, 3, 4, 5, 6, 7, 8, 9] 10 3
     (by decide) (by decide) (by decide) (by decide) (by decide),
   claim_C6_pool_exhaustion.2 [0, 1, 2, 3, 4, 5, 6, 7, 8, 9] 10 7 4
     (by decide) (by decide) (by decide) (by decide) (by decide) (by decide)⟩

theorem dispatchWalk_trace_congr :
    ∀ (l : List Nat) (f g : Nat → EventNode) (c c2 : Nat),
      (∀ k ∈ l, f k = g k) →
      (dispatchWalk f c l).2.2 = (dispatchWalk g c2 l).2.2 := by
  intro l
  induction l with
  | nil => intro f g c c2 _; rfl
  | cons j rest ih =>
      intro f g c c2 hfg
      have hj : f j = g j := hfg j (List.mem_cons_self _ _)
      simp only [dispatchWalk, hj]
      by_cases hc : ((g j).IsRunning && (g j).IsTriggered && (g j).IsUsed) = true
      · rw [if_pos hc, if_pos hc]
        have hptw : ∀ k ∈ rest,
            (if k = j then { g j with IsTriggered := false } else f k) =
            (if k = j then { g j with IsTriggered := false } else g k) := by
          intro k hk
          by_cases hkj : k = j
          · rw [if_pos hkj, if_pos hkj]
          · rw [if_neg hkj, if_neg hkj]
            exact hfg k (List.mem_cons_of_mem _ hk)
        exact congrArg (fun tr => ((g j).fn, (g j).ud) :: tr) (ih _ _ _ _ hptw)
      · rw [if_neg hc, if_neg hc]
        exact ih _ _ _ _ (fun k hk => hfg k (List.mem_cons_of_mem _ hk))

theorem dispatchWalk_trace :
    ∀ (l : List Nat) (f : Nat → EventNode) (c : Nat), l.Nodup →
      (dispatchWalk f c l).2.2 =
        (l.filter fun j => eventFireCond (f j)).map fun j => ((f j).fn, (f j).ud) := by
  intro l
  induction l with
  | nil => intro f c _; rfl
  | cons j rest ih =>
      intro f c hnd
      have hjr : j ∉ rest := (List.nodup_cons.mp hnd).1
      have hndr : rest.Nodup := (List.nodup_cons.mp hnd).2
      simp only [dispatchWalk]
      by_cases hc : ((f j).IsRunning && (f j).IsTriggered && (f j).IsUsed) = true
      · rw [if_pos hc]
        have hfilter : (j :: rest).filter (fun x => eventFireCond (f x)) =
            j :: rest.filter (fun x => eventFireCond (f x)) :=
          List.filter_cons_of_pos (by simpa [eventFireCond] using hc)
        rw [hfilter, List.map_cons]
        have hcong := dispatchWalk_trace_congr rest
          (fun k => if k = j then { f j with IsTriggered := false } else f k) f
          (f j).id c
          (by
            intro k hk
            have hkj : k ≠ j := fun h => hjr (h ▸ hk)
            simp [hkj])
        show ((f j).fn, (f j).ud) ::
            (dispatchWalk
              (fun k => if k = j then { f j with IsTriggered := false } else f k)
              (f j).id rest).2.2 =
          ((f j).fn, (f j).ud) ::
            (rest.filter fun x => eventFireCond (f x)).map fun x => ((f x).fn, (f x).ud)
        rw [hcong, ih f c hndr]
      · rw [if_neg hc]
        have hfilter : (j :: rest).filter (fun x => eventFireCond (f x)) =
            rest.filter (fun x => eventFireCond (f x)) :=
          List.filter_cons_of_neg (by simpa [eventFireCond] using hc)
        rw [hfilter]
        exact ih f c hndr

/-- Claim C4: a dispatch pass visits active descriptors in active-list
head order (most recently registered first): its invocation trace is the
head-order filtering of the runnable triggered nodes; in particular after
registering ids 1, 2, 3 in that order and triggering all three, the
callbacks fire in the order 3, 2, 1. -/
theorem claim_C4_dispatch_order :
    (∀ s : EventState, s.active.Nodup →
       (dispatchAllEvents s).2 =
         (s.active.filter fun j => eventFireCond (s.node j)).map
           fun j => ((s.node j).fn, (s.node j).ud)) ∧
    (dispatchAllEvents evOrderState).2 = [(33, 3), (22, 2), (11, 1)] := by
  constructor
  · intro s hnd
    show (dispatchWalk s.node s.CurrentEventId s.active).2.2 = _
    exact dispatchWalk_trace s.active s.node s.CurrentEventId hnd
  · decide

/-- Witness for C4 on the concrete three-event scenario. -/
theorem claim_C4_witness :
    (dispatchAllEvents evOrderState).2 =
      (evOrderState.active.filter fun j => eventFireCond (evOrderState.node j)).map
        fun j => ((evOrderState.node j).fn, (evOrderState.node j).ud) :=
  claim_C4_dispatch_order.1 evOrderState (by decide)

/-- Claim C5: `trigger_event` sets the triggered flag of whichever active
descriptor it finds, with no condition on the run-enabled flag; and in the
register / suspend / trigger / resume scenario one dispatch pass invokes
the callback exactly once and clears the triggered flag. -/
theorem claim_C5_trigger_persistence :
    (∀ (s : EventState) (id j : Nat), id < U8 →
       s.active.find? (fun k => (s.node k).id == id) = some j →
       (triggerEvent s id).1 = MStatus.OK ∧
       (triggerEvent s id).2.node j = { s.node j with IsTriggered := true }) ∧
    ((triggerEvent evSusp 5).1 = MStatus.OK ∧
     (evTrig.node 0).IsTriggered = true ∧
     (evTrig.node 0).IsRunning = false ∧
     (dispatchAllEvents evResumed).2 = [(9, 4)] ∧
     ((dispatchAllEvents evResumed).1.node 0).IsTriggered = false) := by
  constructor
  · intro s id j hid hfind
    have hidm : id % U8 = id := Nat.mod_eq_of_lt hid
    constructor
    · simp only [triggerEvent, hidm, hfind]
    · simp only [triggerEvent, hidm, hfind]
      simp
  · decide

/-- Witness for C5 on the concrete suspended event. -/
theorem claim_C5_witness :
    (triggerEvent evSusp 5).1 = MStatus.OK ∧
    (triggerEvent evSusp 5).2.node 0 = { evSusp.node 0 with IsTriggered := true } :=
  claim_C5_trigger_persistence.1 evSusp 5 0 (by decide) (by decide)
